import Mathlib

/-!
Verification development for chaos-dl (`main.go`): a downloader that fetches
per-program zip archives, extracts their `.txt` members into one consolidated
`subdomains.txt` per program, and a query that scans the consolidated files
for a case-insensitive substring and streams the best-matching file.

Strings are modelled at the character-sequence level (`String.data`), since
the Go string operations used (`strings.ToLower`, `strings.HasSuffix`,
`strings.Contains`, `strings.EqualFold`) act on the underlying sequence.
Byte streams are modelled as `List Nat`. The concurrent pipelines are
modelled as one arbitrary serialization; the properties proved (counts,
multiset of temp files, the winner of the reduction over a permutation of
arrivals) are insensitive to the interleaving.
-/

namespace Chaos

/-- Entity descriptor loaded from the index (`Program`, main.go). -/
structure Program where
  name : String
  url : String
  count : Int
deriving DecidableEq

/-- Go `strings.ToLower`, modelled on the character sequence. -/
def lowerChars (s : String) : List Char := s.data.map Char.toLower

/-- Go `strings.HasSuffix s suf`, modelled on character sequences. -/
def hasSuffix (s suf : String) : Bool := decide (suf.data <:+ s.data)

/-- Go `strings.EqualFold`, modelled as equality after lowering. -/
def equalFold (a b : String) : Bool := lowerChars a == lowerChars b

/-- One archive member as `unzip` sees it through `archive/zip`: stored name,
directory flag, decompressed byte stream, whether `Open` succeeds, whether
the `io.Copy` of the stream completes, and how many bytes a failing copy
wrote before the error. -/
structure ZipEntry where
  name : String
  isDir : Bool
  data : List Nat
  openOk : Bool
  copyOk : Bool
  copied : Nat
deriving DecidableEq

/-- A zip archive: whether `zip.OpenReader` succeeds, and the member list in
stored order. -/
structure Archive where
  openOk : Bool
  entries : List ZipEntry
deriving DecidableEq

/-- The member filter of `unzip` (main.go): a member is consolidated when it
is not a directory and its name ends in `.txt`. -/
def isTextMember (e : ZipEntry) : Bool := !e.isDir && hasSuffix e.name ".txt"

/-- The member loop of `unzip` (main.go), with the consolidated file content
threaded through: non-text members and directories are skipped; a
member-open or copy error aborts the loop (the deferred flush leaves the
bytes copied so far in the file); otherwise the member's whole decompressed
stream is appended. -/
def unzipEntries : List ZipEntry → List Nat → Except String Unit × List Nat
  | [], content => (Except.ok (), content)
  | e :: es, content =>
    if e.isDir || !(hasSuffix e.name ".txt") then unzipEntries es content
    else if !e.openOk then (Except.error "member open", content)
    else if !e.copyOk then (Except.error "member copy", content ++ e.data.take e.copied)
    else unzipEntries es (content ++ e.data)

/-- `unzip src dest` (main.go). `prior` is the content of the consolidated
output file before the call and `createOk` is whether the `os.Create` of
that file succeeds. If the archive fails to open, or `os.Create` fails,
`unzip` returns the error with the prior content untouched; otherwise
`os.Create` truncates the file and the member loop runs. Returns the error
status and the final content of the consolidated file. -/
def unzip (ar : Archive) (createOk : Bool) (prior : List Nat) :
    Except String Unit × List Nat :=
  if !ar.openOk then (Except.error "zip open", prior)
  else if !createOk then (Except.error "create out", prior)
  else unzipEntries ar.entries []

/-- Ordered concatenation of the decompressed streams of the regular `.txt`
members, in archive-stored order, with no separators. -/
def textBytes : List ZipEntry → List Nat
  | [] => []
  | e :: es => (if isTextMember e then e.data else []) ++ textBytes es

/-- Environment of one `downloadZip` call (main.go): does `http.Get`
succeed, the response status, does `os.CreateTemp` succeed, the unique temp
file name it picks, and does the body copy complete. -/
structure FetchSpec where
  netOk : Bool
  status : Nat
  createOk : Bool
  tmpName : String
  copyOk : Bool
deriving DecidableEq

/-- `downloadZip` (main.go) acting on the multiset of temp files on disk: on
success the created temp file stays and its path is returned; a partial body
copy removes the temp file before returning the error; the earlier failure
paths never create a file. -/
def downloadZip (sp : FetchSpec) (fs : Multiset String) :
    Except String String × Multiset String :=
  if !sp.netOk then (Except.error "get", fs)
  else if sp.status ≠ 200 then (Except.error "status", fs)
  else if !sp.createOk then (Except.error "create temp", fs)
  else if !sp.copyOk then (Except.error "copy", (sp.tmpName ::ₘ fs).erase sp.tmpName)
  else (Except.ok sp.tmpName, sp.tmpName ::ₘ fs)

/-- `downloadResult` (main.go): the fetched program, the temp archive path
(empty on failure) and the error, if any. -/
structure downloadResult where
  program : Program
  zipPath : String
  err : Option String
deriving DecidableEq

/-- `unzipJob` (main.go): a successfully fetched archive awaiting extraction. -/
structure unzipJob where
  program : Program
  zipPath : String
deriving DecidableEq

/-- Target selection of `parallelDownload` (main.go): `all` selects every
program; otherwise the first case-insensitive name match is selected (the
loop breaks after it). An unknown name exits the process before any job is
enqueued; that is modelled as the empty selection. -/
def selectTargets (programs : List Program) (target : String) : List Program :=
  if target == "all" then programs
  else match programs.find? (fun p => equalFold p.name target) with
       | some p => [p]
       | none => []

/-- The job-feeding loop (main.go): only entities with a non-empty URL and a
positive count are sent to the download workers. -/
def enqueueJobs (toDownload : List Program) : List Program :=
  toDownload.filter (fun p => (p.url != "") && decide (0 < p.count))

/-- Stage A (main.go), as one serialization: each enqueued program is
fetched, and a `downloadResult` is emitted — `err = none` with the temp path
on success, the error and an empty path otherwise. The multiset of temp
files on disk is threaded through. -/
def fetchStage :
    List Program → (Program → FetchSpec) → Multiset String →
    List downloadResult × Multiset String
  | [], _, fs => ([], fs)
  | p :: ps, net, fs =>
    let dz := downloadZip (net p) fs
    let rest := fetchStage ps net dz.2
    match dz.1 with
    | Except.ok path => (⟨p, path, none⟩ :: rest.1, rest.2)
    | Except.error e => (⟨p, "", some e⟩ :: rest.1, rest.2)

/-- The result-collection loop of `parallelDownload` (main.go): counts a
failure for each result with an error, a success for each result without
one, and forwards each success as an `unzipJob` in order. -/
def tallyLoop : List downloadResult → Nat × Nat × List unzipJob
  | [] => (0, 0, [])
  | r :: rs =>
    let rest := tallyLoop rs
    match r.err with
    | some _ => (rest.1, rest.2.1 + 1, rest.2.2)
    | none => (rest.1 + 1, rest.2.1, ⟨r.program, r.zipPath⟩ :: rest.2.2)

/-- Stage B (main.go): for each job the worker extracts, reports the outcome
on the console, then removes the temp archive unconditionally. `extractOk`
gives each job's extraction outcome; it affects only the log line. -/
def unzipStage :
    List unzipJob → (unzipJob → Bool) → Multiset String →
    List String × Multiset String
  | [], _, fs => ([], fs)
  | j :: js, extractOk, fs =>
    let msg := if extractOk j then "ok " ++ j.program.name else "unzip failed " ++ j.program.name
    let rest := unzipStage js extractOk (fs.erase j.zipPath)
    (msg :: rest.1, rest.2)

/-- The stage-A results of one `parallelDownload` run. -/
def fetchResults (programs : List Program) (target : String)
    (net : Program → FetchSpec) (fs : Multiset String) : List downloadResult :=
  (fetchStage (enqueueJobs (selectTargets programs target)) net fs).1

/-- `parallelDownload` (main.go): select targets, enqueue the eligible
entities, fetch them, tally the fetch outcomes while forwarding successes to
the unzip workers, and return the printed `(success, failure)` tally
together with the final multiset of temp files on disk. -/
def parallelDownload (programs : List Program) (target : String)
    (net : Program → FetchSpec) (extractOk : unzipJob → Bool)
    (fs : Multiset String) : (Nat × Nat) × Multiset String :=
  let stageA := fetchStage (enqueueJobs (selectTargets programs target)) net fs
  let tally := tallyLoop stageA.1
  ((tally.1, tally.2.1), (unzipStage tally.2.2 extractOk stageA.2).2)

/-- Capacity of the `downloadJobs` channel (main.go: `make(chan Program, len(toDownload))`). -/
def downloadJobsCap (toDownload : List Program) : Nat := toDownload.length

/-- Capacity of the `downloadResults` channel (main.go: `make(chan downloadResult, len(toDownload))`). -/
def downloadResultsCap (toDownload : List Program) : Nat := toDownload.length

/-- Capacity of the `unzipJobs` channel (main.go: `make(chan unzipJob, workers*2)`). -/
def unzipJobsCap (workers : Nat) : Nat := workers * 2

/-- One entry met by the `filepath.Walk` over the corpus root (main.go): its
path, directory flag, whether the walk reports an error for it, and — for
files — the content lines and whether `os.Open` succeeds. -/
structure CorpusEntry where
  path : String
  isDir : Bool
  walkErr : Bool
  lines : List String
  openOk : Bool
deriving DecidableEq

/-- The walk callback (main.go): an entry is collected when the walk reports
no error, it is not a directory, and its path ends in `subdomains.txt`. -/
def discoverFiles (corpus : List CorpusEntry) : List CorpusEntry :=
  corpus.filter (fun e => !e.walkErr && !e.isDir && hasSuffix e.path "subdomains.txt")

/-- The scanner ceiling set by `scanner.Buffer(buf, 1024*1024)` (main.go). -/
def maxScanTokenSize : Nat := 1024 * 1024

/-- Byte length of a line: Go `len` on the UTF-8 encoding. -/
def byteLen (s : String) : Nat := s.data.foldl (fun n c => n + c.utf8Size) 0

/-- A line the bounded scanner can deliver; a longer line stops the scan
with `ErrTooLong`. -/
def lineFits (l : String) : Bool := decide (byteLen l ≤ maxScanTokenSize)

/-- The match test of one delivered line (main.go):
`strings.Contains(strings.ToLower(line), domain)`; the domain was lowercased
once by `parallelQuery`. -/
def lineMatches (domain : List Char) (line : String) : Bool :=
  decide (domain <:+: lowerChars line)

/-- `countMatches` (main.go): a file that fails to open counts 0; otherwise
`scanner.Scan` delivers lines until the first one over the ceiling (the
scanner error is not inspected: the loop just ends and the count so far is
returned), and each delivered line containing the domain counts 1. -/
def countMatches (f : CorpusEntry) (domain : List Char) : Nat :=
  if f.openOk then ((f.lines.takeWhile lineFits).filter (lineMatches domain)).length
  else 0

/-- `queryResult` (main.go). -/
structure queryResult where
  file : String
  matchCount : Nat
deriving DecidableEq

/-- The query workers (main.go): one `queryResult` per file with a positive
match count — zero-count files are not reported — in one serialization
order. -/
def parallelQueryHits (files : List CorpusEntry) (domain : List Char) : List queryResult :=
  files.filterMap (fun f =>
    let c := countMatches f domain
    if 0 < c then some ⟨f.path, c⟩ else none)

/-- The reduction loop of `parallelQuery` (main.go): starts from the zero
value of `queryResult` and replaces the incumbent only on a strictly greater
count, so the first-reduced hit wins ties. -/
def bestHit (hits : List queryResult) : queryResult :=
  hits.foldl (fun best r => if best.matchCount < r.matchCount then r else best) ⟨"", 0⟩

/-- `parallelQuery` (main.go): lowercase the term, discover the consolidated
files (returning silently when there are none), count matches, reduce to the
best hit (returning silently when no file had a match, i.e. the zero value
survived), and stream the winning file's content; `none` models producing no
output. -/
def parallelQuery (corpus : List CorpusEntry) (domain : String) : Option (List String) :=
  let files := discoverFiles corpus
  if files.isEmpty then none
  else
    let best := bestHit (parallelQueryHits files (lowerChars domain))
    if best.file == "" then none
    else match files.find? (fun f => f.path == best.file) with
         | some f => if f.openOk then some f.lines else none
         | none => none

/-! ## Helper lemmas -/

lemma skip_eq_not_text (e : ZipEntry) :
    (e.isDir || !(hasSuffix e.name ".txt")) = !(isTextMember e) := by
  cases hd : e.isDir <;> cases hs : hasSuffix e.name ".txt" <;> simp [isTextMember, hd, hs]

lemma unzipEntries_ok (es : List ZipEntry) : ∀ acc out : List Nat,
    unzipEntries es acc = (Except.ok (), out) → out = acc ++ textBytes es := by
  induction es with
  | nil =>
    intro acc out h
    simp only [unzipEntries, Prod.mk.injEq] at h
    simp [textBytes, h.2.symm]
  | cons e es ih =>
    intro acc out h
    rw [unzipEntries, skip_eq_not_text] at h
    cases ht : isTextMember e with
    | false =>
      rw [ht] at h
      simp only [Bool.not_false, if_true] at h
      rw [textBytes, ht, ih acc out h]
      simp
    | true =>
      rw [ht] at h
      simp only [Bool.not_true, Bool.false_eq_true, if_false] at h
      cases ho : e.openOk with
      | false => rw [ho] at h; simp at h
      | true =>
        rw [ho] at h
        simp only [Bool.not_true, Bool.false_eq_true, if_false] at h
        cases hc : e.copyOk with
        | false => rw [hc] at h; simp at h
        | true =>
          rw [hc] at h
          simp only [Bool.not_true, Bool.false_eq_true, if_false] at h
          rw [textBytes, ht, ih (acc ++ e.data) out h]
          simp

lemma unzipEntries_success (es : List ZipEntry) : ∀ acc : List Nat,
    (∀ e ∈ es, isTextMember e = true → e.openOk = true ∧ e.copyOk = true) →
    (unzipEntries es acc).1 = Except.ok () := by
  induction es with
  | nil => intro acc _; rfl
  | cons e es ih =>
    intro acc hall
    rw [unzipEntries, skip_eq_not_text]
    cases ht : isTextMember e with
    | false =>
      simp only [Bool.not_false, if_true]
      exact ih acc fun x hx => hall x (List.mem_cons_of_mem e hx)
    | true =>
      have he := hall e (List.mem_cons_self e es) ht
      simp only [Bool.not_true, Bool.false_eq_true, if_false, he.1, he.2]
      exact ih (acc ++ e.data) fun x hx => hall x (List.mem_cons_of_mem e hx)

/-! ## C1 -/

/-- C1: for every successful extraction, the consolidated file's byte
content is the ordered, separator-free concatenation of the decompressed
streams of the regular `.txt` members, in archive-stored order; and when the
archive opens, the output file is created, and every text member opens and
copies cleanly, the extraction succeeds — directory entries and non-text
members are skipped without contributing an error. -/
theorem c1_unzip_concatenates_text_members (ar : Archive) (createOk : Bool)
    (prior out : List Nat) :
    (unzip ar createOk prior = (Except.ok (), out) → out = textBytes ar.entries) ∧
    (ar.openOk = true → createOk = true →
      (∀ e ∈ ar.entries, isTextMember e = true → e.openOk = true ∧ e.copyOk = true) →
      (unzip ar createOk prior).1 = Except.ok ()) := by
  constructor
  · intro h
    rw [unzip] at h
    cases ho : ar.openOk with
    | false => rw [ho] at h; simp at h
    | true =>
      rw [ho] at h
      simp only [Bool.not_true, Bool.false_eq_true, if_false] at h
      cases hc : createOk with
      | false => rw [hc] at h; simp at h
      | true =>
        rw [hc] at h
        simp only [Bool.not_true, Bool.false_eq_true, if_false] at h
        simpa using unzipEntries_ok ar.entries [] out h
  · intro ho hcreate hall
    rw [unzip, ho, hcreate]
    simp only [Bool.not_true, Bool.false_eq_true, if_false]
    exact unzipEntries_success ar.entries [] hall

/-- Concrete archive for the C1 witness: a directory entry, a non-text
member that would fail to open, and two text members. -/
def arW : Archive :=
  ⟨true,
   [⟨"sub/", true, [0], true, true, 0⟩,
    ⟨"readme.md", false, [9, 9], false, true, 0⟩,
    ⟨"a.txt", false, [1, 2], true, true, 0⟩,
    ⟨"b.txt", false, [3], true, true, 0⟩]⟩

/-- C1 witness: on `arW`, with the output file created, the extraction
succeeds and yields the concatenation of the two text members' streams. -/
theorem c1_witness :
    (unzip arW true [7]).1 = Except.ok () ∧ ([1, 2, 3] : List Nat) = textBytes arW.entries :=
  ⟨(c1_unzip_concatenates_text_members arW true [7] []).2 rfl rfl (by decide),
   (c1_unzip_concatenates_text_members arW true [7] [1, 2, 3]).1 (by rfl)⟩

/-! ## C5 -/

/-- C5: an entity with an empty URL or non-positive count is never enqueued
(its multiplicity in the job queue is 0), and every eligible entity is
enqueued with exactly the multiplicity it has in the selection — in
particular exactly once when selected once. -/
theorem c5_skip_filter (programs : List Program) (target : String) (p : Program) :
    (enqueueJobs (selectTargets programs target)).count p =
      if p.url ≠ "" ∧ 0 < p.count then (selectTargets programs target).count p else 0 := by
  rw [enqueueJobs]
  by_cases hp : p.url ≠ "" ∧ 0 < p.count
  · rw [if_pos hp]
    exact List.count_filter (by simp [hp.1, hp.2])
  · rw [if_neg hp]
    rw [List.count_eq_zero]
    intro hmem
    have hpred := (List.mem_filter.mp hmem).2
    simp only [bne_iff_ne, ne_eq, Bool.and_eq_true, decide_eq_true_eq] at hpred
    exact hp ⟨hpred.1, hpred.2⟩

/-! ## C7 -/

/-- Demo program for the C7 counterexample. -/
def pDemo : Program := ⟨"acme", "https://x/acme.zip", 10⟩

/-- C7 counterexample: in a run with 4 workers and 100 selected entities the
results channel is created with capacity 100, not 2 times 4; only the
extraction-job channel is sized by the worker count. -/
theorem c7_counterexample :
    downloadResultsCap (List.replicate 100 pDemo) = 100 ∧
    unzipJobsCap 4 = 4 * 2 ∧
    downloadResultsCap (List.replicate 100 pDemo) ≠ 2 * 4 := by
  refine ⟨?_, rfl, ?_⟩ <;> simp [downloadResultsCap]

lemma fetchStage_length (ps : List Program) (net : Program → FetchSpec) :
    ∀ fs : Multiset String, (fetchStage ps net fs).1.length = ps.length := by
  induction ps with
  | nil => intro fs; rfl
  | cons p ps ih =>
    intro fs
    rw [fetchStage]
    cases hdz : downloadZip (net p) fs with
    | mk r fs1 => cases r <;> simp [ih]

/-- C7 amended: the extraction-job channel is bounded with capacity exactly
2 times the worker count; the results channel is bounded with capacity equal
to the number of selected entities — which is at least the number of results
ever sent, so fetch workers never block on it. -/
theorem c7_amended_capacities (programs : List Program) (target : String) (workers : Nat)
    (net : Program → FetchSpec) (fs : Multiset String) :
    unzipJobsCap workers = workers * 2 ∧
    downloadResultsCap (selectTargets programs target) = (selectTargets programs target).length ∧
    (fetchResults programs target net fs).length ≤
      downloadResultsCap (selectTargets programs target) := by
  refine ⟨rfl, rfl, ?_⟩
  rw [fetchResults, fetchStage_length (enqueueJobs (selectTargets programs target)) net fs,
    downloadResultsCap, enqueueJobs]
  exact List.length_filter_le _ _

/-! ## C8 -/

/-- The archive of the C8 counterexample: it fails to open. -/
def arBad : Archive := ⟨false, []⟩

/-- A one-member archive that opens, for the second C8 refutation and the
C8 witness. -/
def arGood : Archive := ⟨true, [⟨"a.txt", false, [5], true, true, 0⟩]⟩

/-- C8 counterexample: the consolidated file's final content is not a
function of the second run's archive alone. When the archive fails to open,
`unzip` returns before `os.Create` runs; and when the archive opens but the
`os.Create` of the output file fails, `unzip` returns before any
truncation. In both cases the file keeps the first run's content, so two
different prior contents give two different final contents. -/
theorem c8_counterexample :
    ((unzip arBad true [9]).2 = [9] ∧ (unzip arBad true []).2 = [] ∧
      (unzip arBad true [9]).2 ≠ (unzip arBad true []).2) ∧
    (arGood.openOk = true ∧ (unzip arGood false [9]).2 = [9] ∧
      (unzip arGood false [9]).2 ≠ (unzip arGood false []).2) := by
  refine ⟨⟨rfl, rfl, ?_⟩, rfl, rfl, ?_⟩ <;> decide

/-- C8 amended: whenever the second run's archive opens successfully and the
`os.Create` of the consolidated file succeeds, the file is truncated first,
so the extraction outcome and the final file content are independent of any
prior content. -/
theorem c8_amended_truncates (ar : Archive) (createOk : Bool)
    (prior1 prior2 : List Nat) :
    ar.openOk = true → createOk = true →
    unzip ar createOk prior1 = unzip ar createOk prior2 := by
  intro ho hc
  simp only [unzip, ho, hc, Bool.not_true, Bool.false_eq_true, if_false]

/-- C8 witness: on an archive that opens, with the output file created, two
different prior file contents give the same run result. -/
theorem c8_witness : unzip arGood true [1] = unzip arGood true [2] :=
  c8_amended_truncates arGood true [1] [2] rfl rfl

/-! ## C3 -/

/-- The `unzipJob` a `downloadResult` turns into, when successful. -/
def toJob (r : downloadResult) : Option unzipJob :=
  match r.err with
  | none => some ⟨r.program, r.zipPath⟩
  | some _ => none

lemma tallyLoop_eq (rs : List downloadResult) :
    tallyLoop rs = (rs.countP (fun r => r.err.isNone),
      rs.countP (fun r => r.err.isSome), rs.filterMap toJob) := by
  induction rs with
  | nil => rfl
  | cons r rs ih =>
    cases hr : r.err <;>
      simp [tallyLoop, toJob, List.countP_cons, List.filterMap_cons, hr, ih]

/-- C3: the printed tally counts exactly the fetch outcomes — successes are
the results without an error and failures the results with one — and it is
unchanged under any change of the per-entity extraction outcomes. -/
theorem c3_tally_counts_fetch_outcomes (programs : List Program) (target : String)
    (net : Program → FetchSpec) (extractOk extractOk2 : unzipJob → Bool)
    (fs : Multiset String) :
    (parallelDownload programs target net extractOk fs).1 =
      ((fetchResults programs target net fs).countP (fun r => r.err.isNone),
       (fetchResults programs target net fs).countP (fun r => r.err.isSome)) ∧
    (parallelDownload programs target net extractOk fs).1 =
      (parallelDownload programs target net extractOk2 fs).1 := by
  constructor
  · simp [parallelDownload, fetchResults, tallyLoop_eq]
  · simp [parallelDownload, tallyLoop_eq]

/-! ## C4 -/

/-- The temp paths of the successful results, in result order. -/
def successPaths (rs : List downloadResult) : List String :=
  rs.filterMap (fun r => match r.err with | none => some r.zipPath | some _ => none)

lemma add_cons_right {α : Type} (s t : Multiset α) (a : α) :
    s + (a ::ₘ t) = a ::ₘ (s + t) := by
  rw [add_comm, Multiset.cons_add, add_comm]

lemma downloadZip_fs (sp : FetchSpec) (fs : Multiset String) :
    (downloadZip sp fs).2 =
      match (downloadZip sp fs).1 with
      | Except.ok path => path ::ₘ fs
      | Except.error _ => fs := by
  unfold downloadZip
  cases sp.netOk with
  | false => simp
  | true =>
    by_cases hs : sp.status ≠ 200
    · simp [hs]
    · cases sp.createOk with
      | false => simp [hs]
      | true =>
        cases sp.copyOk with
        | false => simp [hs, Multiset.erase_cons_head]
        | true => simp [hs]

lemma successPaths_cons_ok (p : Program) (path : String) (rs : List downloadResult) :
    successPaths (⟨p, path, none⟩ :: rs) = path :: successPaths rs := by
  simp [successPaths, List.filterMap_cons]

lemma successPaths_cons_err (p : Program) (e : String) (rs : List downloadResult) :
    successPaths (⟨p, "", some e⟩ :: rs) = successPaths rs := by
  simp [successPaths, List.filterMap_cons]

lemma fetchStage_fs (ps : List Program) (net : Program → FetchSpec) :
    ∀ fs : Multiset String,
      (fetchStage ps net fs).2 = ↑(successPaths (fetchStage ps net fs).1) + fs := by
  induction ps with
  | nil => intro fs; simp [fetchStage, successPaths]
  | cons p ps ih =>
    intro fs
    have hdfs := downloadZip_fs (net p) fs
    rw [fetchStage]
    cases hdz : downloadZip (net p) fs with
    | mk r fs1 =>
      rw [hdz] at hdfs
      cases r with
      | ok path =>
        simp only at hdfs
        subst hdfs
        show (fetchStage ps net (path ::ₘ fs)).2 =
          ↑(successPaths (⟨p, path, none⟩ :: (fetchStage ps net (path ::ₘ fs)).1)) + fs
        rw [successPaths_cons_ok, ih (path ::ₘ fs), add_cons_right,
          ← Multiset.cons_coe, Multiset.cons_add]
      | error e =>
        simp only at hdfs
        rw [hdfs]
        show (fetchStage ps net fs).2 =
          ↑(successPaths (⟨p, "", some e⟩ :: (fetchStage ps net fs).1)) + fs
        rw [successPaths_cons_err, ih fs]

lemma jobs_map_zipPath (rs : List downloadResult) :
    ((tallyLoop rs).2.2).map unzipJob.zipPath = successPaths rs := by
  induction rs with
  | nil => rfl
  | cons r rs ih =>
    rw [tallyLoop]
    cases hr : r.err <;> simp [successPaths, List.filterMap_cons, hr, ih, successPaths]

lemma unzipStage_erases (js : List unzipJob) (extractOk : unzipJob → Bool) :
    ∀ fs : Multiset String,
      (unzipStage js extractOk (↑(js.map unzipJob.zipPath) + fs)).2 = fs := by
  induction js with
  | nil => intro fs; simp [unzipStage]
  | cons j js ih =>
    intro fs
    have h1 : ((↑((j :: js).map unzipJob.zipPath) : Multiset String) + fs).erase j.zipPath =
        ↑(js.map unzipJob.zipPath) + fs := by
      rw [List.map_cons, ← Multiset.cons_coe, Multiset.cons_add, Multiset.erase_cons_head]
    rw [unzipStage]
    show (unzipStage js extractOk _).2 = fs
    rw [h1]
    exact ih fs

/-- C4: after the pipeline fully drains, the multiset of temp archive files
on disk is exactly what it was before the run — every temp file created by a
fetch is deleted, either by `downloadZip` itself on a partial copy or by the
unzip worker unconditionally after the extraction attempt. -/
theorem c4_no_temp_files_remain (programs : List Program) (target : String)
    (net : Program → FetchSpec) (extractOk : unzipJob → Bool) (fs : Multiset String) :
    (parallelDownload programs target net extractOk fs).2 = fs := by
  rw [parallelDownload]
  show (unzipStage
      (tallyLoop (fetchStage (enqueueJobs (selectTargets programs target)) net fs).1).2.2
      extractOk (fetchStage (enqueueJobs (selectTargets programs target)) net fs).2).2 = fs
  rw [fetchStage_fs (enqueueJobs (selectTargets programs target)) net fs,
    ← jobs_map_zipPath]
  exact unzipStage_erases _ extractOk fs

/-! ## C2 -/

/-- One step of the reduction loop (main.go): replace the incumbent only on
a strictly greater match count. -/
def reduceStep (best r : queryResult) : queryResult :=
  if best.matchCount < r.matchCount then r else best

lemma bestHit_eq_foldl (hits : List queryResult) :
    bestHit hits = hits.foldl reduceStep ⟨"", 0⟩ := rfl

lemma foldl_reduce_ge (hits : List queryResult) :
    ∀ b : queryResult, b.matchCount ≤ (hits.foldl reduceStep b).matchCount ∧
      ∀ r ∈ hits, r.matchCount ≤ (hits.foldl reduceStep b).matchCount := by
  induction hits with
  | nil => intro b; simp
  | cons h hs ih =>
    intro b
    rw [List.foldl_cons]
    constructor
    · have h1 : b.matchCount ≤ (reduceStep b h).matchCount := by
        rw [reduceStep]; split <;> omega
      exact le_trans h1 (ih (reduceStep b h)).1
    · intro r hr
      rcases List.mem_cons.mp hr with heq | hr2
      · subst heq
        have h1 : r.matchCount ≤ (reduceStep b r).matchCount := by
          rw [reduceStep]; split <;> omega
        exact le_trans h1 (ih (reduceStep b r)).1
      · exact (ih (reduceStep b h)).2 r hr2

lemma foldl_reduce_mem (hits : List queryResult) :
    ∀ b : queryResult, hits.foldl reduceStep b = b ∨ hits.foldl reduceStep b ∈ hits := by
  induction hits with
  | nil => intro b; left; rfl
  | cons h hs ih =>
    intro b
    rw [List.foldl_cons]
    rcases ih (reduceStep b h) with heq | hmem
    · rw [heq, reduceStep]
      split
      · right; exact List.mem_cons_self h hs
      · left; rfl
    · right; exact List.mem_cons_of_mem h hmem

lemma bestHit_ge (hits : List queryResult) (r : queryResult) (hr : r ∈ hits) :
    r.matchCount ≤ (bestHit hits).matchCount :=
  (foldl_reduce_ge hits ⟨"", 0⟩).2 r hr

lemma bestHit_mem_or_default (hits : List queryResult) :
    bestHit hits = ⟨"", 0⟩ ∨ bestHit hits ∈ hits :=
  foldl_reduce_mem hits ⟨"", 0⟩

/-- C2: the workers report no hit with a zero match count; the reduction's
winner has a match count greater or equal to every reported hit's; one more
arriving hit replaces the incumbent only on a strictly greater count (so on
a tie, the hit reduced first is kept); and over any arrival order of hits
with counts 2, 5, 5 the winner is one of the two count-5 hits and never the
count-2 hit. -/
theorem c2_reduction_picks_max (files : List CorpusEntry) (d : List Char)
    (hits : List queryResult) (r h2 h5a h5b : queryResult) :
    (∀ q ∈ parallelQueryHits files d, 0 < q.matchCount) ∧
    (∀ q ∈ hits, q.matchCount ≤ (bestHit hits).matchCount) ∧
    (bestHit (hits ++ [r]) =
      if (bestHit hits).matchCount < r.matchCount then r else bestHit hits) ∧
    (List.Perm hits [h2, h5a, h5b] → h2.matchCount = 2 → h5a.matchCount = 5 → h5b.matchCount = 5 →
      (bestHit hits = h5a ∨ bestHit hits = h5b) ∧ bestHit hits ≠ h2) := by
  refine ⟨?_, ?_, ?_, ?_⟩
  · intro q hq
    simp only [parallelQueryHits, List.mem_filterMap] at hq
    obtain ⟨f, hf, hsome⟩ := hq
    split at hsome
    · cases hsome
      assumption
    · simp at hsome
  · exact fun q hq => bestHit_ge hits q hq
  · rw [bestHit_eq_foldl, bestHit_eq_foldl, List.foldl_append, List.foldl_cons,
      List.foldl_nil, reduceStep]
  · intro hperm hc2 hc5a hc5b
    have h5a_mem : h5a ∈ hits := hperm.mem_iff.mpr (by simp)
    have hbest_ge : 5 ≤ (bestHit hits).matchCount := hc5a ▸ bestHit_ge hits h5a h5a_mem
    have hmem : bestHit hits ∈ hits := by
      rcases bestHit_mem_or_default hits with heq | hm
      · rw [heq] at hbest_ge
        simp at hbest_ge
      · exact hm
    have hne2 : bestHit hits ≠ h2 := by
      intro heq
      rw [heq, hc2] at hbest_ge
      omega
    refine ⟨?_, hne2⟩
    have hmem3 : bestHit hits ∈ [h2, h5a, h5b] := hperm.mem_iff.mp hmem
    rcases List.mem_cons.mp hmem3 with heq | h3
    · exact absurd heq hne2
    · rcases List.mem_cons.mp h3 with heq | h4
      · exact Or.inl heq
      · exact Or.inr (by simpa using h4)

/-- Hit list for the C2 witness: counts 2, 5, 5 arriving in the order
5, 2, 5. -/
def hitsW : List queryResult := [⟨"b", 5⟩, ⟨"a", 2⟩, ⟨"c", 5⟩]

/-- C2 witness: on `hitsW` the winner is one of the two count-5 hits and not
the count-2 hit. -/
theorem c2_witness :
    (bestHit hitsW = ⟨"b", 5⟩ ∨ bestHit hitsW = ⟨"c", 5⟩) ∧ bestHit hitsW ≠ ⟨"a", 2⟩ :=
  (c2_reduction_picks_max [] [] hitsW ⟨"", 0⟩ ⟨"a", 2⟩ ⟨"b", 5⟩ ⟨"c", 5⟩).2.2.2
    (by decide) rfl rfl rfl

/-! ## C6 -/

lemma byteLen_aux (c : Char) (n : Nat) :
    ∀ k : Nat, (List.replicate n c).foldl (fun m ch => m + ch.utf8Size) k =
      k + n * c.utf8Size := by
  induction n with
  | zero => intro k; simp
  | succ n ih =>
    intro k
    rw [List.replicate_succ, List.foldl_cons, ih]
    ring

lemma byteLen_replicate (n : Nat) (c : Char) :
    byteLen (String.mk (List.replicate n c)) = n * c.utf8Size := by
  rw [byteLen]
  simpa using byteLen_aux c n 0

/-- A line one byte over the scanner ceiling. -/
def longLine : String := String.mk (List.replicate (1024 * 1024 + 1) 'a')

lemma longLine_byteLen : byteLen longLine = 1024 * 1024 + 1 := by
  rw [longLine, byteLen_replicate]
  decide

lemma longLine_not_fits : lineFits longLine = false := by
  rw [lineFits, longLine_byteLen]
  decide

lemma takeWhile_middle (pre : List String) (bad : String) (rest : List String)
    (hpre : ∀ l ∈ pre, lineFits l = true) (hbad : lineFits bad = false) :
    (pre ++ bad :: rest).takeWhile lineFits = pre := by
  induction pre with
  | nil => simp [List.takeWhile_cons, hbad]
  | cons a pre ih =>
    have ha := hpre a (List.mem_cons_self a pre)
    simp only [List.cons_append, List.takeWhile_cons, ha, if_true]
    rw [ih fun l hl => hpre l (List.mem_cons_of_mem a hl)]

/-- The file of the C6 counterexample: one matching line, then a line one
byte over the scanner ceiling. -/
def overflowFile : CorpusEntry :=
  ⟨"chaos/acme/subdomains.txt", false, false, ["sub.example.com", longLine], true⟩

/-- C6 counterexample: `overflowFile` contains a line longer than the
configured scan buffer ceiling, yet `countMatches` returns 1, not 0 — the
matching line delivered before the overflow is still counted. -/
theorem c6_counterexample :
    maxScanTokenSize < byteLen longLine ∧
    countMatches overflowFile ("example.com".data) = 1 := by
  constructor
  · rw [longLine_byteLen]
    decide
  · rw [countMatches]
    have ht : (["sub.example.com"] ++ longLine :: []).takeWhile lineFits =
        ["sub.example.com"] :=
      takeWhile_middle ["sub.example.com"] longLine [] (by decide) longLine_not_fits
    simp only [List.cons_append, List.nil_append] at ht
    show (if true = true then
        (((["sub.example.com", longLine] : List String).takeWhile lineFits).filter
          (lineMatches "example.com".data)).length else 0) = 1
    rw [if_pos rfl, ht]
    decide

/-- C6 amended: a line longer than the scan buffer ceiling ends that file's
scan silently; the file contributes the number of matching lines delivered
before the over-long line — zero only when no earlier line matches — the
lines after it never count, and the failure stays local to that file: the
hits of the other files of the query are unchanged. -/
theorem c6_amended_partial_count (path : String) (pre : List String) (bad : String)
    (rest : List String) (d : List Char) :
    (∀ l ∈ pre, lineFits l = true) → lineFits bad = false →
    (countMatches ⟨path, false, false, pre ++ bad :: rest, true⟩ d =
        (pre.filter (lineMatches d)).length ∧
      ∀ files1 f files2, parallelQueryHits (files1 ++ f :: files2) d =
        parallelQueryHits files1 d ++ parallelQueryHits [f] d ++
          parallelQueryHits files2 d) := by
  intro hpre hbad
  constructor
  · rw [countMatches]
    show (if true = true then
        (((pre ++ bad :: rest).takeWhile lineFits).filter (lineMatches d)).length
      else 0) = (pre.filter (lineMatches d)).length
    rw [if_pos rfl, takeWhile_middle pre bad rest hpre hbad]
  · intro files1 f files2
    by_cases hc : 0 < countMatches f d <;>
      simp [parallelQueryHits, List.filterMap_append, List.filterMap_cons, hc]

/-- C6 witness for the amended theorem: a matching line, the over-long line,
then another matching line; the count is 1, from the line before the
overflow only. -/
theorem c6_witness :
    countMatches ⟨"chaos/acme/subdomains.txt", false, false,
        ["a.example.com"] ++ longLine :: ["b.example.com"], true⟩ ("example.com".data) =
      ((["a.example.com"] : List String).filter (lineMatches "example.com".data)).length :=
  (c6_amended_partial_count "chaos/acme/subdomains.txt" ["a.example.com"] longLine
    ["b.example.com"] ("example.com".data) (by decide) longLine_not_fits).1

/-! ## C9 -/

/-- C9: a walk that discovers no consolidated files produces no output and
no error, and a corpus where every discovered file has zero matches also
produces no output. -/
theorem c9_empty_output (corpus : List CorpusEntry) (domain : String) :
    (discoverFiles corpus = [] → parallelQuery corpus domain = none) ∧
    ((∀ f ∈ discoverFiles corpus, countMatches f (lowerChars domain) = 0) →
      parallelQuery corpus domain = none) := by
  constructor
  · intro h
    rw [parallelQuery, h]
    rfl
  · intro h
    rw [parallelQuery]
    have hhits : parallelQueryHits (discoverFiles corpus) (lowerChars domain) = [] := by
      rw [parallelQueryHits, List.filterMap_eq_nil_iff]
      intro f hf
      simp [h f hf]
    by_cases he : (discoverFiles corpus).isEmpty
    · simp [he]
    · simp [he, hhits, bestHit]

/-- A discovered file with no matching line, for the C9 witness. -/
def fNoMatch : CorpusEntry := ⟨"chaos/acme/subdomains.txt", false, false, ["zzz"], true⟩

/-- C9 witness: the empty corpus and a one-file corpus with no match both
produce no output. -/
theorem c9_witness :
    parallelQuery [] "x" = none ∧ parallelQuery [fNoMatch] "example" = none :=
  ⟨(c9_empty_output [] "x").1 rfl,
   (c9_empty_output [fNoMatch] "example").2 (by decide)⟩

/-! ## C10 -/

/-- C10: a file that cannot be opened contributes a match count of zero with
no error signal — it is never reported as a hit, exactly like a readable
file none of whose delivered lines match. -/
theorem c10_unreadable_counts_zero (f : CorpusEntry) (d : List Char) :
    f.openOk = false →
    countMatches f d = 0 ∧ parallelQueryHits [f] d = [] ∧
    (∀ g : CorpusEntry, g.openOk = true →
      (∀ l ∈ g.lines.takeWhile lineFits, lineMatches d l = false) →
      countMatches g d = countMatches f d) := by
  intro ho
  have hz : countMatches f d = 0 := by
    rw [countMatches, ho]
    simp
  refine ⟨hz, ?_, ?_⟩
  · simp [parallelQueryHits, hz]
  · intro g hg hlines
    rw [hz, countMatches, hg]
    have hfil : List.filter (lineMatches d) (g.lines.takeWhile lineFits) = [] := by
      rw [List.filter_eq_nil_iff]
      intro l hl
      simp [hlines l hl]
    simp [hfil]

/-- An unreadable file for the C10 witness. -/
def fUnreadable : CorpusEntry :=
  ⟨"chaos/x/subdomains.txt", false, false, ["secret.example.com"], false⟩

/-- C10 witness: the unreadable file counts zero and yields no hit. -/
theorem c10_witness :
    countMatches fUnreadable ("example".data) = 0 ∧
    parallelQueryHits [fUnreadable] ("example".data) = [] :=
  ⟨(c10_unreadable_counts_zero fUnreadable ("example".data) rfl).1,
   (c10_unreadable_counts_zero fUnreadable ("example".data) rfl).2.1⟩

end Chaos
